import Mathlib

set_option maxRecDepth 8192

/-!
Shallow embedding of the PICA command processor of this repository
(src/src/video_core/command_processor.cpp) together with proofs about the
claims on its behaviour.  Machine 32-bit words are modelled as natural
numbers below 2 ^ 32; the C bitwise complement of a u32 operand is xor
with 0xFFFFFFFF.
-/

namespace Vvctre

/-- C complement of a 32-bit word. -/
def not32 (x : Nat) : Nat := x ^^^ 0xFFFFFFFF

/-- Expand a 4-bit mask to 4-byte mask, e.g. 0b0101 -> 0x00FF00FF
(the static table at command_processor.cpp:35). -/
def expand_bits_to_bytes : List Nat :=
  [0x00000000, 0x000000ff, 0x0000ff00, 0x0000ffff,
   0x00ff0000, 0x00ff00ff, 0x00ffff00, 0x00ffffff,
   0xff000000, 0xff0000ff, 0xff00ff00, 0xff00ffff,
   0xffff0000, 0xffff00ff, 0xffffff00, 0xffffffff]

/-- Table lookup expand_bits_to_bytes[mask] (the caller always passes the
4-bit parameter_mask field, so the index is below 16). -/
def expandMask (mask : Nat) : Nat := expand_bits_to_bytes.getD mask 0

/-- The masked register update of command_processor.cpp:126:
reg_array[id] = (old_value & ~write_mask) | (value & write_mask). -/
def maskedRegWrite (old value mask : Nat) : Nat :=
  (old &&& not32 (expandMask mask)) ||| (value &&& expandMask mask)

/-- The architectural register file regs.reg_array, addressed by register id. -/
abbrev RegFile := Nat → Nat

/-- Register-file component of WritePicaReg (command_processor.cpp:113-126):
an id at or above NUM_REGS is rejected (logged, no state change), otherwise
the masked write lands on reg_array[id].  NUM_REGS is declared in
video_core/regs.h, outside src, hence it is a parameter here. -/
def regFileWrite (numRegs : Nat) (regs : RegFile) (id value mask : Nat) : RegFile :=
  if id < numRegs then
    fun j => if j = id then maskedRegWrite (regs id) value mask else regs j
  else regs

/-- Byte i (little endian) of a 32-bit word. -/
def byteOf (x i : Nat) : Nat := (x >>> (8 * i)) % 256

/-- Observable notifications issued by WritePicaReg to the optional trace
collaborator (DebugUtils::OnPicaRegWrite), the optional debug-event
collaborator (g_debug_context->OnEvent) and the rasterizer
(NotifyPicaRegisterChanged). -/
inductive PicaEvent where
  | traceWrite (id mask value : Nat)
  | commandLoaded
  | notifyRegisterChanged (id : Nat)
  | commandProcessed
deriving DecidableEq

/-- Observable skeleton of WritePicaReg (command_processor.cpp:110-692).
An id at or above NUM_REGS is logged and the function returns at once
(line 118), before any collaborator notification.  For a valid id the
masked write lands, the trace collaborator is told (id, mask, resulting
value) when tracing is on, the debug collaborator sees PicaCommandLoaded,
the register-id keyed side-effect dispatch runs (every branch of the
switch falls through to the epilogue; the dispatch is a parameter here,
with the state it may touch restricted to the register file and any
events it emits), the rasterizer is told the register changed and the
debug collaborator sees PicaCommandProcessed. -/
def WritePicaRegEvents (numRegs : Nat) (tracing debugContext : Bool)
    (dispatch : Nat → Nat → RegFile → RegFile × List PicaEvent)
    (regs : RegFile) (id value mask : Nat) : RegFile × List PicaEvent :=
  if numRegs ≤ id then (regs, [])
  else
    let written : RegFile := fun j => if j = id then maskedRegWrite (regs id) value mask else regs j
    let ev1 := if tracing then [PicaEvent.traceWrite id mask (written id)] else []
    let ev2 := if debugContext then [PicaEvent.commandLoaded] else []
    let d := dispatch id value written
    (d.1, ev1 ++ ev2 ++ d.2 ++ [PicaEvent.notifyRegisterChanged id] ++
      (if debugContext then [PicaEvent.commandProcessed] else []))

/-- The float24 values stored in uniform and attribute slots.  The type
pica_types.h declares is outside src; the constructors record the raw
word handed to float24::FromFloat32 respectively float24::FromRaw,
keeping the numeric interpretation opaque. -/
inductive Float24 where
  | fromFloat32 (bits : Nat)
  | fromRaw (bits : Nat)
deriving DecidableEq

/-- A four-component vector of float24 values (Common::Vec4). -/
structure Vec4F24 where
  x : Float24
  y : Float24
  z : Float24
  w : Float24
deriving DecidableEq

/-- The state WriteUniformFloatReg (command_processor.cpp:63-108) works on:
the staging counter float_regs_counter, the four-word staging buffer
uniform_write_buffer, the uniform_setup register (destination index and
the is-32-bit flag) and the 96 float uniform slots setup.uniforms.f. -/
structure UniformState where
  counter : Nat
  buffer : Nat → Nat
  index : Nat
  isFloat32 : Bool
  f : Nat → Vec4F24

/-- Flush condition of lines 74-75, evaluated after the incoming word has
been staged (so with the counter already incremented). -/
def uniformFlushTriggered (counter : Nat) (isFloat32 : Bool) : Bool :=
  (4 ≤ counter && isFloat32) || (3 ≤ counter && !isFloat32)

/-- The 32-bit decode of lines 86-88: uniform[3 - i] = FromFloat32(word i),
so word0 becomes component 3 (w) down to word3 becoming component 0 (x). -/
def decodeFloat32 (b : Nat → Nat) : Vec4F24 :=
  { x := .fromFloat32 (b 3), y := .fromFloat32 (b 2),
    z := .fromFloat32 (b 1), w := .fromFloat32 (b 0) }

/-- The packed 24-bit decode of lines 91-96. -/
def decodePacked (b : Nat → Nat) : Vec4F24 :=
  { w := .fromRaw (b 0 >>> 8),
    z := .fromRaw (((b 0 &&& 0xFF) <<< 16) ||| ((b 1 >>> 16) &&& 0xFFFF)),
    y := .fromRaw (((b 1 &&& 0xFFFF) <<< 8) ||| ((b 2 >>> 24) &&& 0xFF)),
    x := .fromRaw (b 2 &&& 0xFFFFFF) }

/-- WriteUniformFloatReg (command_processor.cpp:63-108): stage the word;
once a full vector is staged the counter is reset, an index at or above
96 is logged and the vector dropped (index untouched), otherwise the
decoded vector is stored and the destination index incremented
(uniform_setup.index.Assign masks to a bitfield declared outside src;
on the indices 0..96 the claims range over it is a plain increment). -/
def WriteUniformFloatReg (s : UniformState) (value : Nat) : UniformState :=
  let buffer' : Nat → Nat := fun i => if i = s.counter then value else s.buffer i
  let counter' := s.counter + 1
  if uniformFlushTriggered counter' s.isFloat32 then
    if 96 ≤ s.index then
      { s with buffer := buffer', counter := 0 }
    else
      { s with
        buffer := buffer'
        counter := 0
        f := fun i =>
          if i = s.index then
            (if s.isFloat32 then decodeFloat32 buffer' else decodePacked buffer')
          else s.f i
        index := s.index + 1 }
  else
    { s with buffer := buffer', counter := counter' }

/-- A sequence of writes to the float-uniform set_value registers. -/
def feedUniform (s : UniformState) (l : List Nat) : UniformState :=
  l.foldl WriteUniformFloatReg s

/-- Worker-unit count of the draw trigger (command_processor.cpp:420-422):
vs_threads = min(num_vertices / min_vertices_per_thread,
hardware_concurrency() - 1), computed in unsigned 32-bit arithmetic, so
the subtraction wraps modulo 2 ^ 32. -/
def vsThreads (numVertices minVerticesPerThread hardwareConcurrency : Nat) : Nat :=
  min (numVertices / minVerticesPerThread)
    ((hardwareConcurrency + (2 ^ 32 - 1)) % 2 ^ 32)

/-- The vertex loop runs inline on the calling thread exactly when
vs_threads is zero (command_processor.cpp:424-430). -/
def singleThreadedDraw (numVertices minVerticesPerThread hardwareConcurrency : Nat) : Bool :=
  vsThreads numVertices minVerticesPerThread hardwareConcurrency == 0

/-- The PipelineRegs::TriangleTopology values referenced at
command_processor.cpp:281-282 (regs_pipeline.h is outside src). -/
inductive TriangleTopology where
  | List
  | Strip
  | Fan
  | Shader
deriving DecidableEq

/-- The inputs the trigger_draw fast-path decision reads
(command_processor.cpp:275-303): the hw-shader setting, whether the
software primitive assembler holds no buffered vertices, the use_gs
register, the assembler topology, the vertex count, and the answer the
rasterizer collaborator gives to AccelerateDrawBatch(is_indexed). -/
structure DrawTriggerInput where
  hwShaderEnabled : Bool
  assemblerEmpty : Bool
  useGs : Bool
  topology : TriangleTopology
  numVertices : Nat
  accelAccepts : Bool

/-- The accelerate_draw computation of command_processor.cpp:277-293:
hw shader enabled and assembler empty; with the geometry shader disabled
the Shader and List topologies additionally require the vertex count to
be divisible by 3; with the geometry shader in use the fast path is off. -/
def accelerateDraw (s : DrawTriggerInput) : Bool :=
  let a := s.hwShaderEnabled && s.assemblerEmpty
  if s.useGs = false then
    if s.topology = .Shader ∨ s.topology = .List then
      a && decide (s.numVertices % 3 = 0)
    else a
  else false

/-- The fast path skipping the software vertex pipeline is taken when
accelerate_draw holds and the rasterizer collaborator accepts the batch
(command_processor.cpp:297-303). -/
def acceleratedFastPath (s : DrawTriggerInput) : Bool :=
  accelerateDraw s && s.accelAccepts

/-- The state touched by the vs.program.set_word and
vs.swizzle_patterns.set_word branches of WritePicaReg
(command_processor.cpp:576-620): the vertex-unit program and swizzle
stores with their shared write offsets and dirty flags, the geometry-unit
mirrors, and the gs_unit_exclusive_configuration pipeline flag. -/
structure ShaderUnitsState where
  vsProgramOffset : Nat
  vsProgramCode : Nat → Nat
  vsProgramDirty : Bool
  vsSwizzleOffset : Nat
  vsSwizzleData : Nat → Nat
  vsSwizzleDirty : Bool
  gsProgramCode : Nat → Nat
  gsProgramDirty : Bool
  gsSwizzleData : Nat → Nat
  gsSwizzleDirty : Bool
  gsUnitExclusiveConfiguration : Bool

/-- vs.program.set_word branch (command_processor.cpp:576-597): an offset
at or above 512 is logged and the write dropped; otherwise the word is
stored in the vertex unit, mirrored verbatim into the geometry unit at
the same offset unless gs_unit_exclusive_configuration is set, and the
offset advances by one. -/
def vsProgramSetWord (s : ShaderUnitsState) (value : Nat) : ShaderUnitsState :=
  if 512 ≤ s.vsProgramOffset then s
  else
    { s with
      vsProgramCode := fun j => if j = s.vsProgramOffset then value else s.vsProgramCode j
      vsProgramDirty := true
      gsProgramCode :=
        if s.gsUnitExclusiveConfiguration then s.gsProgramCode
        else fun j => if j = s.vsProgramOffset then value else s.gsProgramCode j
      gsProgramDirty :=
        if s.gsUnitExclusiveConfiguration then s.gsProgramDirty else true
      vsProgramOffset := s.vsProgramOffset + 1 }

/-- vs.swizzle_patterns.set_word branch (command_processor.cpp:599-620);
swizzleSize stands for g_state.vs.swizzle_data.size(), whose declaration
(video_core/shader/shader.h) is outside src. -/
def vsSwizzleSetWord (swizzleSize : Nat) (s : ShaderUnitsState) (value : Nat) :
    ShaderUnitsState :=
  if swizzleSize ≤ s.vsSwizzleOffset then s
  else
    { s with
      vsSwizzleData := fun j => if j = s.vsSwizzleOffset then value else s.vsSwizzleData j
      vsSwizzleDirty := true
      gsSwizzleData :=
        if s.gsUnitExclusiveConfiguration then s.gsSwizzleData
        else fun j => if j = s.vsSwizzleOffset then value else s.gsSwizzleData j
      gsSwizzleDirty :=
        if s.gsUnitExclusiveConfiguration then s.gsSwizzleDirty else true
      vsSwizzleOffset := s.vsSwizzleOffset + 1 }

/-- One write in a sequence of vertex-unit program and swizzle word
writes. -/
inductive VsSetupWrite where
  | programWord (value : Nat)
  | swizzleWord (value : Nat)

/-- Dispatch one vertex-unit setup write to its branch. -/
def vsSetupStep (swizzleSize : Nat) (s : ShaderUnitsState) : VsSetupWrite → ShaderUnitsState
  | .programWord v => vsProgramSetWord s v
  | .swizzleWord v => vsSwizzleSetWord swizzleSize s v

/-- Run a sequence of vertex-unit program/swizzle word writes. -/
def runVsSetupWrites (swizzleSize : Nat) (s : ShaderUnitsState)
    (l : List VsSetupWrite) : ShaderUnitsState :=
  l.foldl (vsSetupStep swizzleSize) s

/-- One slot of the static vs_output vertex cache
(command_processor.cpp:313-323): a batch-generation tag and the cached
shader result for the vertex. -/
structure CachedVertex (α : Type) where
  batch : Nat
  data : α

/-- The single-threaded indexed pass of VSUnitLoop
(command_processor.cpp:359-415 with thread_id 0 and num_threads 1 on an
indexed draw): the loop indices 0..k-1 run in order, the vertex index is
resolved through the index array, a vertex whose cache entry already
carries the current batch tag is skipped, and otherwise the vertex
shader (the collaborator shade, a function of the vertex index) runs
once, its result is stored and the entry is tagged with the batch id.
Returns the final cache together with the list of vertex indices the
shader was invoked on, in order. -/
def VSUnitLoopSingle {α : Type} (shade : Nat → α) (arr : Nat → Nat) (batchId : Nat) :
    Nat → (Nat → CachedVertex α) → ((Nat → CachedVertex α) × List Nat)
  | 0, cache => (cache, [])
  | k + 1, cache =>
    let p := VSUnitLoopSingle shade arr batchId k cache
    let vertex := arr k
    if (p.1 vertex).batch = batchId then p
    else
      (fun u => if u = vertex then ⟨batchId, shade vertex⟩ else p.1 u, p.2 ++ [vertex])

/-- The consumption loop of the draw trigger
(command_processor.cpp:443-465) on the single-threaded path: loop index
i reads the cached result of its vertex, in submission order. -/
def consumeVertex {α : Type} (shade : Nat → α) (arr : Nat → Nat) (batchId n : Nat)
    (cache : Nat → CachedVertex α) (i : Nat) : α :=
  ((VSUnitLoopSingle shade arr batchId n cache).1 (arr i)).data

/-- The state ProcessCommandList walks on (g_state.cmd_list plus the
register file the command-buffer redirect reads): head pointer and
current read pointer as word addresses into guest memory, the declared
length in words, and reg_array. -/
structure CmdState where
  head : Nat
  cur : Nat
  len : Nat
  regs : RegFile

/-- Static configuration of the command dispatcher model.  Guest memory
mem is word-addressed and read-only here (WritePicaReg never stores to
guest memory).  numRegs is Regs::NUM_REGS; trig0 is the register id
PICA_REG_INDEX(pipeline.command_buffer.trigger[0]), with trigger[1] the
next id (command_processor.cpp:255-258); physAddrWords and sizeWords
read the configured command-buffer address (as a word address) and size
(in words) for a trigger index out of the register file, standing for
GetPhysicalAddress composed with the pointer translation, and
GetSize / sizeof(u32).  Modelled from the spec: regs.h, regs_pipeline.h
and command_processor.h are outside src, so the numeric register ids and
the command-buffer address and size decoding stay parameters. -/
structure CmdEnv where
  mem : Nat → Nat
  numRegs : Nat
  trig0 : Nat
  physAddrWords : RegFile → Nat → Nat
  sizeWords : RegFile → Nat → Nat

/-- Modelled from the spec: command_processor.h with the CommandHeader
bit fields is outside src; the spec says the header encodes a target
register id, a 4-bit byte mask, an extra-data-length count and a
group-commands flag, laid out here in the standard PICA order. -/
def headerCmdId (h : Nat) : Nat := h % 2 ^ 16

/-- The 4-bit parameter_mask field of a command header. -/
def headerMask (h : Nat) : Nat := (h >>> 16) % 2 ^ 4

/-- The extra-data-length field of a command header. -/
def headerExtra (h : Nat) : Nat := (h >>> 20) % 2 ^ 11

/-- The group-commands flag of a command header. -/
def headerGroup (h : Nat) : Bool := h.testBit 31

/-- The register-write path as the command dispatcher sees it: the
bounds-checked masked register-file write of WritePicaReg plus the one
switch branch that touches the command-list cursor, the
command_buffer.trigger case (command_processor.cpp:255-264), which
repoints head, current and length at the buffer configured in the
command_buffer registers.  The other switch branches never touch the
command-list cursor and stay outside this model of the dispatcher. -/
def cmdWritePica (env : CmdEnv) (st : CmdState) (id value mask : Nat) : CmdState :=
  if env.numRegs ≤ id then st
  else
    let regs2 := regFileWrite env.numRegs st.regs id value mask
    if id = env.trig0 ∨ id = env.trig0 + 1 then
      let index := id - env.trig0
      { st with
        regs := regs2
        head := env.physAddrWords regs2 index
        cur := env.physAddrWords regs2 index
        len := env.sizeWords regs2 index }
    else { st with regs := regs2 }

/-- The extra-data loop of one dispatcher iteration
(command_processor.cpp:709-712): n more words are consumed, each written
to cmd_id plus the group offset; i counts the words already consumed. -/
def cmdExtraLoop (env : CmdEnv) (base mask : Nat) (group : Bool) :
    Nat → Nat → CmdState → CmdState
  | 0, _, st => st
  | n + 1, i, st =>
    let word := env.mem st.cur
    let st2 : CmdState := { st with cur := st.cur + 1 }
    cmdExtraLoop env base mask group n (i + 1)
      (cmdWritePica env st2 (base + (if group then i + 1 else 0)) word mask)

/-- The body of the while loop of ProcessCommandList
(command_processor.cpp:698-713): bump the cursor by one word when it
sits at an odd word offset from the list head (the source tests
(head_ptr - current_ptr) % 2 != 0 on pointers; the cursor never falls
below the head, since it starts there, only grows, and a redirect resets
it to the new head, and on such states that parity equals the parity of
cur - head used here), read the value word and then the header word,
dispatch the write, then consume the extra data words. -/
def cmdStep (env : CmdEnv) (st : CmdState) : CmdState :=
  let st1 : CmdState := if (st.cur - st.head) % 2 ≠ 0 then { st with cur := st.cur + 1 } else st
  let value := env.mem st1.cur
  let header := env.mem (st1.cur + 1)
  let st2 : CmdState := { st1 with cur := st1.cur + 2 }
  cmdExtraLoop env (headerCmdId header) (headerMask header) (headerGroup header)
    (headerExtra header) 0
    (cmdWritePica env st2 (headerCmdId header) value (headerMask header))

/-- Fuel-indexed while loop of ProcessCommandList: some final state once
the loop condition current_ptr < head_ptr + length fails within the
given number of iterations, none otherwise. -/
def cmdRun (env : CmdEnv) : Nat → CmdState → Option CmdState
  | 0, _ => none
  | fuel + 1, st =>
    if st.head + st.len ≤ st.cur then some st
    else cmdRun env fuel (cmdStep env st)

/-- Entry state of ProcessCommandList(list, size)
(command_processor.cpp:694-696). -/
def initCmdState (regs : RegFile) (listAddr sizeBytes : Nat) : CmdState :=
  { head := listAddr, cur := listAddr, len := sizeBytes / 4, regs := regs }

/-- ProcessCommandList terminates on a state when some amount of fuel
makes the loop exit. -/
def CmdTerminates (env : CmdEnv) (st : CmdState) : Prop :=
  ∃ fuel final, cmdRun env fuel st = some final

/-- The header h makes the dispatcher write a command-buffer trigger
register (directly or through its group sweep). -/
def headerWritesTrigger (env : CmdEnv) (h : Nat) : Prop :=
  (headerCmdId h = env.trig0 ∨ headerCmdId h = env.trig0 + 1)
  ∨ ∃ i, i < headerExtra h
      ∧ (headerCmdId h + (if headerGroup h then i + 1 else 0) = env.trig0
        ∨ headerCmdId h + (if headerGroup h then i + 1 else 0) = env.trig0 + 1)

/-- The register file of the self-chaining counterexample: the
command-buffer address register for trigger index 0 points at word
address 100 and the size register holds 2 words. -/
def chainRegs : RegFile :=
  fun j => if j = 0x238 then 100 else if j = 0x23A then 2 else 0

/-- Concrete dispatcher configuration for the counterexample: NUM_REGS
768, trigger registers 0x23C and 0x23D, address and size words taken
from registers 0x238 + index and 0x23A + index.  Guest memory holds, at
the list location 100, the value word 0 and a header addressing the
trigger register 0x23C with mask 0 and no extra data. -/
def chainEnv : CmdEnv :=
  { mem := fun a => if a = 101 then 0x23C else 0
    numRegs := 768
    trig0 := 0x23C
    physAddrWords := fun regs i => regs (0x238 + i)
    sizeWords := fun regs i => regs (0x23A + i) }

/-- The self-chaining start state: ProcessCommandList over the two-word
list at word address 100 (size 8 bytes). -/
def chainState : CmdState := initCmdState chainRegs 100 8

theorem expandMask_lt_two_pow (mask : Nat) : expandMask mask < 2 ^ 32 := by
  rcases Nat.lt_or_ge mask 16 with h | h
  · have hall : ∀ m : Fin 16, expandMask m.val < 2 ^ 32 := by decide
    exact hall ⟨mask, h⟩
  · have hlen : expand_bits_to_bytes.length ≤ mask := by
      simpa [expand_bits_to_bytes] using h
    simp [expandMask, List.getElem?_eq_none hlen]

theorem expandMask_testBit :
    ∀ mask < 16, ∀ j < 32, (expandMask mask).testBit j = mask.testBit (j / 8) := by
  decide

theorem testBit_not32 (x j : Nat) :
    (not32 x).testBit j = ((x.testBit j).xor (decide (j < 32))) := by
  have h : not32 x = x ^^^ (2 ^ 32 - 1) := by norm_num [not32]
  rw [h, Nat.testBit_xor, Nat.testBit_two_pow_sub_one]

theorem testBit_maskedRegWrite (old value mask j : Nat) :
    (maskedRegWrite old value mask).testBit j =
      if (expandMask mask).testBit j then value.testBit j
      else (old.testBit j && decide (j < 32)) := by
  have hwm : expandMask mask < 2 ^ 32 := expandMask_lt_two_pow mask
  by_cases hj : j < 32
  · simp [maskedRegWrite, testBit_not32, hj]
    cases h : (expandMask mask).testBit j <;> simp [h]
  · have hwb : (expandMask mask).testBit j = false := by
      apply Nat.testBit_lt_two_pow
      calc expandMask mask < 2 ^ 32 := hwm
        _ ≤ 2 ^ j := Nat.pow_le_pow_right (by norm_num) (Nat.le_of_not_lt hj)
    simp [maskedRegWrite, testBit_not32, hj, hwb]

theorem testBit_byteOf (x i k : Nat) :
    (byteOf x i).testBit k = (decide (k < 8) && x.testBit (8 * i + k)) := by
  have h256 : (256 : Nat) = 2 ^ 8 := by norm_num
  rw [byteOf, h256, Nat.testBit_mod_two_pow, Nat.testBit_shiftRight]

theorem byteOf_maskedRegWrite (old value mask : Nat) (hm : mask < 16)
    {i : Nat} (hi : i < 4) :
    byteOf (maskedRegWrite old value mask) i =
      if mask.testBit i then byteOf value i else byteOf old i := by
  cases hb : mask.testBit i
  · rw [if_neg (by simp [hb])]
    apply Nat.eq_of_testBit_eq
    intro k
    rw [testBit_byteOf, testBit_byteOf]
    by_cases hk : k < 8
    · have hlt : 8 * i + k < 32 := by omega
      have hdiv : (8 * i + k) / 8 = i := by omega
      have hw : (expandMask mask).testBit (8 * i + k) = false := by
        rw [expandMask_testBit mask hm _ hlt, hdiv, hb]
      rw [testBit_maskedRegWrite, hw]
      simp [hk, hlt]
    · simp [hk]
  · rw [if_pos (by simp [hb])]
    apply Nat.eq_of_testBit_eq
    intro k
    rw [testBit_byteOf, testBit_byteOf]
    by_cases hk : k < 8
    · have hlt : 8 * i + k < 32 := by omega
      have hdiv : (8 * i + k) / 8 = i := by omega
      have hw : (expandMask mask).testBit (8 * i + k) = true := by
        rw [expandMask_testBit mask hm _ hlt, hdiv, hb]
      rw [testBit_maskedRegWrite, hw]
      simp [hk]
    · simp [hk]

theorem maskedRegWrite_idem (old value mask : Nat) :
    maskedRegWrite (maskedRegWrite old value mask) value mask =
      maskedRegWrite old value mask := by
  apply Nat.eq_of_testBit_eq
  intro j
  rw [testBit_maskedRegWrite, testBit_maskedRegWrite]
  cases hw : (expandMask mask).testBit j <;> simp [hw, Bool.and_assoc]

/-- C1: for a valid id the register-file write computes
reg[id] = (old & ~expand(m)) | (v & expand(m)); the expanded mask replicates
each set bit of the 4-bit mask to a full 0xFF byte; exactly the bytes
selected by the mask take the bytes of the written value while unselected
bytes keep their old contents; every other register is unchanged; and
re-issuing the identical write leaves the register file unchanged. -/
theorem C1_register_file_masked_write (numRegs : Nat) (regs : RegFile)
    (id value mask : Nat) (hid : id < numRegs) (hm : mask < 16) :
    (regFileWrite numRegs regs id value mask) id =
        ((regs id) &&& not32 (expandMask mask)) ||| (value &&& expandMask mask)
      ∧ (∀ m < 16, ∀ j < 32, (expandMask m).testBit j = m.testBit (j / 8))
      ∧ (∀ i < 4, byteOf ((regFileWrite numRegs regs id value mask) id) i =
          if mask.testBit i then byteOf value i else byteOf (regs id) i)
      ∧ (∀ j, j ≠ id → (regFileWrite numRegs regs id value mask) j = regs j)
      ∧ regFileWrite numRegs (regFileWrite numRegs regs id value mask) id value mask =
          regFileWrite numRegs regs id value mask := by
  have hwrite : (regFileWrite numRegs regs id value mask) id =
      maskedRegWrite (regs id) value mask := by
    simp [regFileWrite, hid]
  refine ⟨by rw [hwrite]; rfl, expandMask_testBit, ?_, ?_, ?_⟩
  · intro i hi
    rw [hwrite]
    exact byteOf_maskedRegWrite (regs id) value mask hm hi
  · intro j hj
    simp [regFileWrite, hid, hj]
  · funext j
    by_cases hj : j = id
    · subst hj
      simp [regFileWrite, hid, maskedRegWrite_idem]
    · simp [regFileWrite, hid, hj]

theorem C1_witness :
    ((5 : Nat) < 768 ∧ (5 : Nat) < 16) ∧
      ((regFileWrite 768 (fun _ => 0x12345678) 5 0xAABBCCDD 5) 5 =
          ((0x12345678 : Nat) &&& not32 (expandMask 5)) ||| (0xAABBCCDD &&& expandMask 5)
        ∧ (∀ m < 16, ∀ j < 32, (expandMask m).testBit j = m.testBit (j / 8))
        ∧ (∀ i < 4, byteOf ((regFileWrite 768 (fun _ => 0x12345678) 5 0xAABBCCDD 5) 5) i =
            if (5 : Nat).testBit i then byteOf 0xAABBCCDD i else byteOf 0x12345678 i)
        ∧ (∀ j, j ≠ 5 → (regFileWrite 768 (fun _ => 0x12345678) 5 0xAABBCCDD 5) j = 0x12345678)
        ∧ regFileWrite 768 (regFileWrite 768 (fun _ => 0x12345678) 5 0xAABBCCDD 5) 5 0xAABBCCDD 5 =
            regFileWrite 768 (fun _ => 0x12345678) 5 0xAABBCCDD 5) :=
  ⟨⟨by norm_num, by norm_num⟩,
    C1_register_file_masked_write 768 (fun _ => 0x12345678) 5 0xAABBCCDD 5
      (by norm_num) (by norm_num)⟩

/-- C5 counterexample: with tracing enabled and a debug collaborator
attached, a write to the out-of-range register id NUM_REGS (here 768)
produces no notification at all, because WritePicaReg returns at line 118
before the trace, debug and rasterizer notifications run.  This refutes
the part of the claim stating that every write, valid or not, notifies
the trace and debug collaborators. -/
theorem C5_counterexample :
    (WritePicaRegEvents 768 true true (fun _ _ r => (r, [])) (fun _ => 0) 768 5 15).2 = []
    ∧ ¬ (∃ v, PicaEvent.traceWrite 768 15 v ∈
        (WritePicaRegEvents 768 true true (fun _ _ r => (r, [])) (fun _ => 0) 768 5 15).2) := by
  constructor
  · simp [WritePicaRegEvents]
  · rintro ⟨v, hv⟩
    simp [WritePicaRegEvents] at hv

/-- C5 (amended): a write with an out-of-range id fails silently with a
logged error, changing no state and notifying no collaborator; a valid
write, after the masked register update, notifies the optional trace
collaborator with (id, mask, resulting value), the optional debug-event
collaborator, and after the side-effect dispatch the rasterizer and
again the debug-event collaborator. -/
theorem C5_write_notifications (numRegs : Nat) (tracing debugContext : Bool)
    (dispatch : Nat → Nat → RegFile → RegFile × List PicaEvent)
    (regs : RegFile) (id value mask : Nat) :
    (numRegs ≤ id →
        WritePicaRegEvents numRegs tracing debugContext dispatch regs id value mask = (regs, []))
    ∧ (id < numRegs →
        (WritePicaRegEvents numRegs tracing debugContext dispatch regs id value mask).2 =
          (if tracing then [PicaEvent.traceWrite id mask (maskedRegWrite (regs id) value mask)] else [])
          ++ (if debugContext then [PicaEvent.commandLoaded] else [])
          ++ (dispatch id value
                (fun j => if j = id then maskedRegWrite (regs id) value mask else regs j)).2
          ++ [PicaEvent.notifyRegisterChanged id]
          ++ (if debugContext then [PicaEvent.commandProcessed] else [])) := by
  constructor
  · intro h
    simp [WritePicaRegEvents, h]
  · intro h
    simp [WritePicaRegEvents, Nat.not_le.mpr h]

theorem C5_witness :
    ((5 : Nat) < 768
      ∧ (WritePicaRegEvents 768 true true (fun _ _ r => (r, [])) (fun _ => 0) 5 7 15).2 =
        [PicaEvent.traceWrite 5 15 (maskedRegWrite 0 7 15),
         PicaEvent.commandLoaded, PicaEvent.notifyRegisterChanged 5,
         PicaEvent.commandProcessed])
    ∧ ((768 : Nat) ≤ 900
      ∧ WritePicaRegEvents 768 true true (fun _ _ r => (r, [])) (fun _ => 0) 900 7 15 =
          (fun _ => 0, [])) := by
  refine ⟨⟨by norm_num, ?_⟩, ⟨by norm_num, ?_⟩⟩
  · have h := (C5_write_notifications 768 true true (fun _ _ r => (r, []))
      (fun _ => 0) 5 7 15).2 (by norm_num)
    simpa using h
  · exact (C5_write_notifications 768 true true (fun _ _ r => (r, []))
      (fun _ => 0) 900 7 15).1 (by norm_num)

theorem shiftLeft_lor_eq_add {x y n : Nat} (hy : y < 2 ^ n) :
    (x <<< n) ||| y = x * 2 ^ n + y := by
  rw [Nat.mul_comm]
  apply Nat.eq_of_testBit_eq
  intro j
  rw [Nat.testBit_mul_pow_two_add x hy j, Nat.testBit_or, Nat.testBit_shiftLeft]
  by_cases hj : j < n
  · simp [hj, Nat.not_le.mpr hj]
  · have hyj : y.testBit j = false :=
      Nat.testBit_lt_two_pow
        (lt_of_lt_of_le hy (Nat.pow_le_pow_right (by norm_num) (Nat.le_of_not_lt hj)))
    simp [hj, Nat.le_of_not_lt hj, hyj]

/-- C2: when the staging buffer reaches the flush threshold (four staged
words in 32-bit mode, three in packed mode) with destination index
below 96, the stored vector is decoded exactly as the claim states:
32-bit mode hands the four raw words to FromFloat32 component-reversed
(word0 to component 3 ... word3 to component 0); packed mode hands
FromRaw the slices w = word0 bits 31..8, z = word0 bits 7..0 followed by
word1 bits 31..16, y = word1 bits 15..0 followed by word2 bits 31..24,
x = word2 bits 23..0 — the last conjunct checks that the bit expressions
the code computes equal those slice concatenations on 32-bit words. -/
theorem C2_uniform_float_decode (s : UniformState) (v : Nat) :
    (s.isFloat32 = true → s.counter = 3 → s.index < 96 →
      (WriteUniformFloatReg s v).f s.index =
        { x := .fromFloat32 v, y := .fromFloat32 (s.buffer 2),
          z := .fromFloat32 (s.buffer 1), w := .fromFloat32 (s.buffer 0) })
    ∧ (s.isFloat32 = false → s.counter = 2 → s.index < 96 →
      (WriteUniformFloatReg s v).f s.index =
        { w := .fromRaw (s.buffer 0 >>> 8),
          z := .fromRaw (((s.buffer 0 &&& 0xFF) <<< 16) ||| ((s.buffer 1 >>> 16) &&& 0xFFFF)),
          y := .fromRaw (((s.buffer 1 &&& 0xFFFF) <<< 8) ||| ((v >>> 24) &&& 0xFF)),
          x := .fromRaw (v &&& 0xFFFFFF) })
    ∧ (∀ w0 w1 w2 : Nat, w1 < 2 ^ 32 → w2 < 2 ^ 32 →
        w0 >>> 8 = w0 / 2 ^ 8
        ∧ ((w0 &&& 0xFF) <<< 16) ||| ((w1 >>> 16) &&& 0xFFFF) =
            (w0 % 2 ^ 8) * 2 ^ 16 + w1 / 2 ^ 16
        ∧ ((w1 &&& 0xFFFF) <<< 8) ||| ((w2 >>> 24) &&& 0xFF) =
            (w1 % 2 ^ 16) * 2 ^ 8 + w2 / 2 ^ 24
        ∧ w2 &&& 0xFFFFFF = w2 % 2 ^ 24) := by
  refine ⟨?_, ?_, ?_⟩
  · intro h32 hc hidx
    simp [WriteUniformFloatReg, uniformFlushTriggered, h32, hc, Nat.not_le.mpr hidx,
      decodeFloat32]
  · intro h32 hc hidx
    simp [WriteUniformFloatReg, uniformFlushTriggered, h32, hc, Nat.not_le.mpr hidx,
      decodePacked]
  · intro w0 w1 w2 h1 h2
    have e8 : (0xFF : Nat) = 2 ^ 8 - 1 := by norm_num
    have e16 : (0xFFFF : Nat) = 2 ^ 16 - 1 := by norm_num
    have e24 : (0xFFFFFF : Nat) = 2 ^ 24 - 1 := by norm_num
    have d16 : w1 >>> 16 = w1 / 2 ^ 16 := Nat.shiftRight_eq_div_pow w1 16
    have d24 : w2 >>> 24 = w2 / 2 ^ 24 := Nat.shiftRight_eq_div_pow w2 24
    have b16 : w1 / 2 ^ 16 < 2 ^ 16 := by omega
    have b24 : w2 / 2 ^ 24 < 2 ^ 8 := by omega
    refine ⟨Nat.shiftRight_eq_div_pow w0 8, ?_, ?_, ?_⟩
    · rw [e8, e16, Nat.and_pow_two_sub_one_eq_mod, d16,
        Nat.and_pow_two_sub_one_of_lt_two_pow b16]
      exact shiftLeft_lor_eq_add b16
    · rw [e16, e8, Nat.and_pow_two_sub_one_eq_mod, d24,
        Nat.and_pow_two_sub_one_of_lt_two_pow b24]
      exact shiftLeft_lor_eq_add (lt_of_lt_of_le b24 (by norm_num))
    · rw [e24, Nat.and_pow_two_sub_one_eq_mod]

theorem C2_witness :
    (({ counter := 3, buffer := fun i => 100 + i, index := 5, isFloat32 := true,
        f := fun _ => ⟨.fromRaw 0, .fromRaw 0, .fromRaw 0, .fromRaw 0⟩ } : UniformState).isFloat32 = true
      ∧ (WriteUniformFloatReg
          { counter := 3, buffer := fun i => 100 + i, index := 5, isFloat32 := true,
            f := fun _ => ⟨.fromRaw 0, .fromRaw 0, .fromRaw 0, .fromRaw 0⟩ } 7).f 5 =
        { x := .fromFloat32 7, y := .fromFloat32 102,
          z := .fromFloat32 101, w := .fromFloat32 100 }) := by
  refine ⟨rfl, ?_⟩
  have h := (C2_uniform_float_decode
      { counter := 3, buffer := fun i => 100 + i, index := 5, isFloat32 := true,
        f := fun _ => ⟨.fromRaw 0, .fromRaw 0, .fromRaw 0, .fromRaw 0⟩ } 7).1
      rfl rfl (by norm_num)
  simpa using h

/-- C10: a flush rejected for destination index at or above 96 has already
reset the staging counter to 0 (line 76 runs before the bounds check at
line 80), so the staged words are discarded and will not be retried;
the destination index and every uniform slot are unchanged. -/
theorem C10_rejected_flush_discards (s : UniformState) (v : Nat)
    (hflush : uniformFlushTriggered (s.counter + 1) s.isFloat32 = true)
    (hidx : 96 ≤ s.index) :
    (WriteUniformFloatReg s v).counter = 0
    ∧ (WriteUniformFloatReg s v).index = s.index
    ∧ (WriteUniformFloatReg s v).f = s.f := by
  simp [WriteUniformFloatReg, hflush, hidx]

theorem C10_witness :
    (uniformFlushTriggered (2 + 1) false = true ∧ (96 : Nat) ≤ 96)
    ∧ ((WriteUniformFloatReg
          { counter := 2, buffer := fun _ => 0, index := 96, isFloat32 := false,
            f := fun _ => ⟨.fromRaw 0, .fromRaw 0, .fromRaw 0, .fromRaw 0⟩ } 7).counter = 0
      ∧ (WriteUniformFloatReg
          { counter := 2, buffer := fun _ => 0, index := 96, isFloat32 := false,
            f := fun _ => ⟨.fromRaw 0, .fromRaw 0, .fromRaw 0, .fromRaw 0⟩ } 7).index = 96
      ∧ (WriteUniformFloatReg
          { counter := 2, buffer := fun _ => 0, index := 96, isFloat32 := false,
            f := fun _ => ⟨.fromRaw 0, .fromRaw 0, .fromRaw 0, .fromRaw 0⟩ } 7).f =
          (fun _ => ⟨.fromRaw 0, .fromRaw 0, .fromRaw 0, .fromRaw 0⟩)) :=
  ⟨⟨by decide, by norm_num⟩,
    C10_rejected_flush_discards
      { counter := 2, buffer := fun _ => 0, index := 96, isFloat32 := false,
        f := fun _ => ⟨.fromRaw 0, .fromRaw 0, .fromRaw 0, .fromRaw 0⟩ } 7
      (by decide) (by norm_num)⟩

theorem feedUniform_split (s : UniformState) (a b c d : Nat) (rest : List Nat) :
    feedUniform s (a :: b :: c :: d :: rest) = feedUniform (feedUniform s [a, b, c, d]) rest := by
  simp [feedUniform]

theorem uniform_flush4 (s : UniformState) (h32 : s.isFloat32 = true)
    (hc : s.counter = 0) (hidx : s.index < 96) (a b c d : Nat) :
    (feedUniform s [a, b, c, d]).counter = 0
    ∧ (feedUniform s [a, b, c, d]).index = s.index + 1
    ∧ (feedUniform s [a, b, c, d]).isFloat32 = true := by
  simp [feedUniform, WriteUniformFloatReg, uniformFlushTriggered, h32, hc,
    Nat.not_le.mpr hidx]

theorem uniform_flush4_rejected (s : UniformState) (h32 : s.isFloat32 = true)
    (hc : s.counter = 0) (hidx : 96 ≤ s.index) (a b c d : Nat) :
    (feedUniform s [a, b, c, d]).counter = 0
    ∧ (feedUniform s [a, b, c, d]).index = s.index
    ∧ (feedUniform s [a, b, c, d]).f = s.f := by
  simp [feedUniform, WriteUniformFloatReg, uniformFlushTriggered, h32, hc, hidx]

theorem uniform_flushes (k : Nat) : ∀ (l : List Nat) (s : UniformState),
    l.length = 4 * k → s.isFloat32 = true → s.counter = 0 → s.index + k ≤ 96 →
    (feedUniform s l).counter = 0
    ∧ (feedUniform s l).index = s.index + k
    ∧ (feedUniform s l).isFloat32 = true := by
  induction k with
  | zero =>
    intro l s hl h32 hc _
    have hnil : l = [] := List.eq_nil_of_length_eq_zero (by simpa using hl)
    subst hnil
    simp [feedUniform, hc, h32]
  | succ k ih =>
    intro l s hl h32 hc hk
    rcases l with _ | ⟨a, l⟩
    · exfalso
      simp only [List.length_nil, List.length_cons] at hl
      omega
    rcases l with _ | ⟨b, l⟩
    · exfalso
      simp only [List.length_nil, List.length_cons] at hl
      omega
    rcases l with _ | ⟨c, l⟩
    · exfalso
      simp only [List.length_nil, List.length_cons] at hl
      omega
    rcases l with _ | ⟨d, rest⟩
    · exfalso
      simp only [List.length_nil, List.length_cons] at hl
      omega
    have hrest : rest.length = 4 * k := by simp at hl; omega
    have hidx : s.index < 96 := by omega
    obtain ⟨q1, q2, q3⟩ := uniform_flush4 s h32 hc hidx a b c d
    rw [feedUniform_split]
    obtain ⟨r1, r2, r3⟩ := ih rest (feedUniform s [a, b, c, d]) hrest q3 q1
      (by rw [q2]; omega)
    exact ⟨r1, by rw [r2, q2]; omega, r3⟩

/-- C6: a successful flush increments the destination index by exactly 1;
a flush with destination index at or above 96 is rejected and logged,
leaves every uniform slot unchanged and does not move the index; and in
particular, feeding 96 full vectors (384 words, 32-bit mode) from index 0
brings the index to 96, after which a 97th vector is rejected with the
index remaining 96 and the uniform slots untouched. -/
theorem C6_uniform_index_advance (s : UniformState) (v : Nat) :
    (uniformFlushTriggered (s.counter + 1) s.isFloat32 = true → s.index < 96 →
        (WriteUniformFloatReg s v).index = s.index + 1)
    ∧ (uniformFlushTriggered (s.counter + 1) s.isFloat32 = true → 96 ≤ s.index →
        (WriteUniformFloatReg s v).index = s.index ∧ (WriteUniformFloatReg s v).f = s.f)
    ∧ (∀ l : List Nat, l.length = 384 →
        ∀ s0 : UniformState, s0.isFloat32 = true → s0.counter = 0 → s0.index = 0 →
          (feedUniform s0 l).index = 96
          ∧ ∀ a b c d : Nat,
              (feedUniform (feedUniform s0 l) [a, b, c, d]).index = 96
              ∧ (feedUniform (feedUniform s0 l) [a, b, c, d]).f = (feedUniform s0 l).f) := by
  refine ⟨?_, ?_, ?_⟩
  · intro hflush hidx
    simp [WriteUniformFloatReg, hflush, Nat.not_le.mpr hidx]
  · intro hflush hidx
    simp [WriteUniformFloatReg, hflush, hidx]
  · intro l hl s0 h32 hc hi
    obtain ⟨q1, q2, q3⟩ := uniform_flushes 96 l s0 (by omega) h32 hc (by omega)
    have hidx96 : (feedUniform s0 l).index = 96 := by rw [q2, hi]
    refine ⟨hidx96, ?_⟩
    intro a b c d
    obtain ⟨r1, r2, r3⟩ := uniform_flush4_rejected (feedUniform s0 l) q3 q1
      (by rw [hidx96]) a b c d
    exact ⟨by rw [r2, hidx96], r3⟩

theorem C6_witness :
    ((List.replicate 384 0).length = 384
      ∧ (feedUniform
          { counter := 0, buffer := fun _ => 0, index := 0, isFloat32 := true,
            f := fun _ => ⟨.fromRaw 0, .fromRaw 0, .fromRaw 0, .fromRaw 0⟩ }
          (List.replicate 384 0)).index = 96)
    ∧ (feedUniform (feedUniform
          { counter := 0, buffer := fun _ => 0, index := 0, isFloat32 := true,
            f := fun _ => ⟨.fromRaw 0, .fromRaw 0, .fromRaw 0, .fromRaw 0⟩ }
          (List.replicate 384 0)) [1, 2, 3, 4]).index = 96 := by
  have h := (C6_uniform_index_advance
      { counter := 0, buffer := fun _ => 0, index := 0, isFloat32 := true,
        f := fun _ => ⟨.fromRaw 0, .fromRaw 0, .fromRaw 0, .fromRaw 0⟩ } 0).2.2
      (List.replicate 384 0) (by simp)
      { counter := 0, buffer := fun _ => 0, index := 0, isFloat32 := true,
        f := fun _ => ⟨.fromRaw 0, .fromRaw 0, .fromRaw 0, .fromRaw 0⟩ }
      rfl rfl rfl
  exact ⟨⟨by simp, h.1⟩, (h.2 1 2 3 4).1⟩

/-- C3 counterexample: with num_vertices 30, min_vertices_per_thread 10
and hardware_concurrency 5 the code spawns min(30 / 10, 5 - 1) = 3
worker units, not 5 as claimed. -/
theorem C3_counterexample : vsThreads 30 10 5 ≠ 5 := by decide

/-- C3 (amended): the spawned worker count equals
min(num_vertices / min_vertices_per_thread, hardware_concurrency - 1)
for any hardware_concurrency between 1 and 2 ^ 32 (no unsigned wrap);
with num_vertices 30, min_vertices_per_thread 10 and
hardware_concurrency 5 exactly 3 worker units are spawned; and with
hardware_concurrency 1 zero workers are spawned and the vertex loop
takes the single-threaded inline path. -/
theorem C3_worker_count (n m hc : Nat) (h1 : 1 ≤ hc) (h2 : hc ≤ 2 ^ 32) :
    vsThreads n m hc = min (n / m) (hc - 1)
    ∧ vsThreads 30 10 5 = 3
    ∧ vsThreads n m 1 = 0
    ∧ singleThreadedDraw n m 1 = true := by
  have key : (hc + (2 ^ 32 - 1)) % 2 ^ 32 = hc - 1 := by
    have h3 : hc + (2 ^ 32 - 1) = (hc - 1) + 2 ^ 32 := by omega
    rw [h3, Nat.add_mod_right, Nat.mod_eq_of_lt (by omega)]
  have k1 : (1 + (2 ^ 32 - 1)) % 2 ^ 32 = 0 := by norm_num
  refine ⟨?_, by decide, ?_, ?_⟩
  · simp only [vsThreads]
    rw [key]
  · simp only [vsThreads]
    rw [k1]
    exact Nat.min_zero _
  · simp only [singleThreadedDraw, vsThreads]
    rw [k1]
    simp

theorem C3_witness :
    ((1 : Nat) ≤ 5 ∧ (5 : Nat) ≤ 2 ^ 32)
    ∧ (vsThreads 30 10 5 = min (30 / 10) (5 - 1)
      ∧ vsThreads 30 10 5 = 3
      ∧ vsThreads 30 10 1 = 0
      ∧ singleThreadedDraw 30 10 1 = true) :=
  ⟨⟨by norm_num, by norm_num⟩, C3_worker_count 30 10 5 (by norm_num) (by norm_num)⟩

/-- C4 counterexample: a Strip-topology draw with 4 vertices (not a
multiple of 3), empty assembler, hw shader enabled, geometry shader
disabled and an accepting rasterizer takes the fast path.  The claim
requires divisibility by 3 for the strip topology, but the code checks
the Shader and List topologies instead (command_processor.cpp:281-282). -/
theorem C4_counterexample :
    acceleratedFastPath ⟨true, true, false, .Strip, 4, true⟩ = true
      ∧ (4 : Nat) % 3 ≠ 0 := by
  refine ⟨rfl, by decide⟩

/-- C4 (amended): the fast path is taken only when the primitive
assembler holds no software-assembled pending vertices, the geometry
shader is disabled, for the shader-driven and list topologies the vertex
count is divisible by 3, and the rasterizer collaborator accepts the
accelerated batch. -/
theorem C4_fast_path_conditions (s : DrawTriggerInput)
    (h : acceleratedFastPath s = true) :
    s.assemblerEmpty = true
    ∧ s.useGs = false
    ∧ ((s.topology = .Shader ∨ s.topology = .List) → s.numVertices % 3 = 0)
    ∧ s.accelAccepts = true := by
  obtain ⟨hw, ae, gs, topo, nv, acc⟩ := s
  simp only [acceleratedFastPath, accelerateDraw] at h
  cases gs
  · cases topo <;> simp_all
  · simp_all

theorem C4_witness :
    (acceleratedFastPath ⟨true, true, false, .List, 6, true⟩ = true)
    ∧ ((⟨true, true, false, .List, 6, true⟩ : DrawTriggerInput).assemblerEmpty = true
      ∧ (⟨true, true, false, .List, 6, true⟩ : DrawTriggerInput).useGs = false
      ∧ (((⟨true, true, false, .List, 6, true⟩ : DrawTriggerInput).topology = .Shader
          ∨ (⟨true, true, false, .List, 6, true⟩ : DrawTriggerInput).topology = .List)
          → (⟨true, true, false, .List, 6, true⟩ : DrawTriggerInput).numVertices % 3 = 0)
      ∧ (⟨true, true, false, .List, 6, true⟩ : DrawTriggerInput).accelAccepts = true) :=
  ⟨rfl, C4_fast_path_conditions ⟨true, true, false, .List, 6, true⟩ rfl⟩

theorem vsSetupStep_inv (swizzleSize : Nat) (s : ShaderUnitsState) (w : VsSetupWrite) :
    (vsSetupStep swizzleSize s w).gsUnitExclusiveConfiguration = s.gsUnitExclusiveConfiguration
    ∧ s.vsProgramOffset ≤ (vsSetupStep swizzleSize s w).vsProgramOffset
    ∧ s.vsSwizzleOffset ≤ (vsSetupStep swizzleSize s w).vsSwizzleOffset
    ∧ (∀ o, o < s.vsProgramOffset →
        (vsSetupStep swizzleSize s w).vsProgramCode o = s.vsProgramCode o
        ∧ (vsSetupStep swizzleSize s w).gsProgramCode o = s.gsProgramCode o)
    ∧ (∀ o, o < s.vsSwizzleOffset →
        (vsSetupStep swizzleSize s w).vsSwizzleData o = s.vsSwizzleData o
        ∧ (vsSetupStep swizzleSize s w).gsSwizzleData o = s.gsSwizzleData o) := by
  cases w with
  | programWord v =>
    by_cases hb : 512 ≤ s.vsProgramOffset
    · simp [vsSetupStep, vsProgramSetWord, hb]
    · cases hexcl : s.gsUnitExclusiveConfiguration
      · refine ⟨?_, ?_, ?_, fun o ho => ?_, fun o ho => ?_⟩ <;>
          simp [vsSetupStep, vsProgramSetWord, hb, hexcl] <;>
          simp [Nat.ne_of_lt ho]
      · refine ⟨?_, ?_, ?_, fun o ho => ?_, fun o ho => ?_⟩ <;>
          simp [vsSetupStep, vsProgramSetWord, hb, hexcl] <;>
          simp [Nat.ne_of_lt ho]
  | swizzleWord v =>
    by_cases hb : swizzleSize ≤ s.vsSwizzleOffset
    · simp [vsSetupStep, vsSwizzleSetWord, hb]
    · cases hexcl : s.gsUnitExclusiveConfiguration
      · refine ⟨?_, ?_, ?_, fun o ho => ?_, fun o ho => ?_⟩ <;>
          simp [vsSetupStep, vsSwizzleSetWord, hb, hexcl] <;>
          simp [Nat.ne_of_lt ho]
      · refine ⟨?_, ?_, ?_, fun o ho => ?_, fun o ho => ?_⟩ <;>
          simp [vsSetupStep, vsSwizzleSetWord, hb, hexcl] <;>
          simp [Nat.ne_of_lt ho]

theorem runVsSetup_inv (swizzleSize : Nat) :
    ∀ (l : List VsSetupWrite) (s : ShaderUnitsState),
      (runVsSetupWrites swizzleSize s l).gsUnitExclusiveConfiguration =
          s.gsUnitExclusiveConfiguration
      ∧ s.vsProgramOffset ≤ (runVsSetupWrites swizzleSize s l).vsProgramOffset
      ∧ s.vsSwizzleOffset ≤ (runVsSetupWrites swizzleSize s l).vsSwizzleOffset
      ∧ (∀ o, o < s.vsProgramOffset →
          (runVsSetupWrites swizzleSize s l).vsProgramCode o = s.vsProgramCode o
          ∧ (runVsSetupWrites swizzleSize s l).gsProgramCode o = s.gsProgramCode o)
      ∧ (∀ o, o < s.vsSwizzleOffset →
          (runVsSetupWrites swizzleSize s l).vsSwizzleData o = s.vsSwizzleData o
          ∧ (runVsSetupWrites swizzleSize s l).gsSwizzleData o = s.gsSwizzleData o) := by
  intro l
  induction l with
  | nil => intro s; simp [runVsSetupWrites]
  | cons w rest ih =>
    intro s
    have hrun : runVsSetupWrites swizzleSize s (w :: rest) =
        runVsSetupWrites swizzleSize (vsSetupStep swizzleSize s w) rest := rfl
    obtain ⟨e1, p1, w1, pc1, sc1⟩ := vsSetupStep_inv swizzleSize s w
    obtain ⟨e2, p2, w2, pc2, sc2⟩ := ih (vsSetupStep swizzleSize s w)
    rw [hrun]
    refine ⟨by rw [e2, e1], le_trans p1 p2, le_trans w1 w2, ?_, ?_⟩
    · intro o ho
      obtain ⟨a1, a2⟩ := pc1 o ho
      obtain ⟨b1, b2⟩ := pc2 o (lt_of_lt_of_le ho p1)
      exact ⟨by rw [b1, a1], by rw [b2, a2]⟩
    · intro o ho
      obtain ⟨a1, a2⟩ := sc1 o ho
      obtain ⟨b1, b2⟩ := sc2 o (lt_of_lt_of_le ho w1)
      exact ⟨by rw [b1, a1], by rw [b2, a2]⟩

theorem vsSwizzleSetWord_program_fields (swizzleSize : Nat) (s : ShaderUnitsState) (v : Nat) :
    (vsSwizzleSetWord swizzleSize s v).vsProgramOffset = s.vsProgramOffset
    ∧ (vsSwizzleSetWord swizzleSize s v).vsProgramCode = s.vsProgramCode
    ∧ (vsSwizzleSetWord swizzleSize s v).gsProgramCode = s.gsProgramCode := by
  by_cases hb : swizzleSize ≤ s.vsSwizzleOffset <;> simp [vsSwizzleSetWord, hb]

theorem vsProgramSetWord_swizzle_fields (s : ShaderUnitsState) (v : Nat) :
    (vsProgramSetWord s v).vsSwizzleOffset = s.vsSwizzleOffset
    ∧ (vsProgramSetWord s v).vsSwizzleData = s.vsSwizzleData
    ∧ (vsProgramSetWord s v).gsSwizzleData = s.gsSwizzleData := by
  by_cases hb : 512 ≤ s.vsProgramOffset <;> simp [vsProgramSetWord, hb]

theorem vsProgramSetWord_accepted (s : ShaderUnitsState) (v : Nat)
    (hexcl : s.gsUnitExclusiveConfiguration = false)
    (hb : s.vsProgramOffset < 512) :
    (vsProgramSetWord s v).vsProgramOffset = s.vsProgramOffset + 1
    ∧ (vsProgramSetWord s v).vsProgramCode s.vsProgramOffset = v
    ∧ (vsProgramSetWord s v).gsProgramCode s.vsProgramOffset = v := by
  simp [vsProgramSetWord, Nat.not_le.mpr hb, hexcl]

theorem vsSwizzleSetWord_accepted (swizzleSize : Nat) (s : ShaderUnitsState) (v : Nat)
    (hexcl : s.gsUnitExclusiveConfiguration = false)
    (hb : s.vsSwizzleOffset < swizzleSize) :
    (vsSwizzleSetWord swizzleSize s v).vsSwizzleOffset = s.vsSwizzleOffset + 1
    ∧ (vsSwizzleSetWord swizzleSize s v).vsSwizzleData s.vsSwizzleOffset = v
    ∧ (vsSwizzleSetWord swizzleSize s v).gsSwizzleData s.vsSwizzleOffset = v := by
  simp [vsSwizzleSetWord, Nat.not_le.mpr hb, hexcl]

theorem runVsSetup_mirror (swizzleSize : Nat) :
    ∀ (l : List VsSetupWrite) (s : ShaderUnitsState),
      s.gsUnitExclusiveConfiguration = false →
      (∀ o, s.vsProgramOffset ≤ o →
        o < (runVsSetupWrites swizzleSize s l).vsProgramOffset →
        (runVsSetupWrites swizzleSize s l).vsProgramCode o =
          (runVsSetupWrites swizzleSize s l).gsProgramCode o)
      ∧ (∀ o, s.vsSwizzleOffset ≤ o →
        o < (runVsSetupWrites swizzleSize s l).vsSwizzleOffset →
        (runVsSetupWrites swizzleSize s l).vsSwizzleData o =
          (runVsSetupWrites swizzleSize s l).gsSwizzleData o) := by
  intro l
  induction l with
  | nil =>
    intro s _
    constructor
    · intro o h1 h2
      exact absurd h2 (by simp [runVsSetupWrites]; omega)
    · intro o h1 h2
      exact absurd h2 (by simp [runVsSetupWrites]; omega)
  | cons w rest ih =>
    intro s hexcl
    have hrun : runVsSetupWrites swizzleSize s (w :: rest) =
        runVsSetupWrites swizzleSize (vsSetupStep swizzleSize s w) rest := rfl
    have hexcl2 : (vsSetupStep swizzleSize s w).gsUnitExclusiveConfiguration = false := by
      rw [(vsSetupStep_inv swizzleSize s w).1, hexcl]
    obtain ⟨ihp, ihs⟩ := ih (vsSetupStep swizzleSize s w) hexcl2
    rw [hrun]
    constructor
    · intro o h1 h2
      cases w with
      | programWord v =>
        by_cases hb : 512 ≤ s.vsProgramOffset
        · have hstep : vsSetupStep swizzleSize s (.programWord v) = s := by
            simp [vsSetupStep, vsProgramSetWord, hb]
          exact ihp o (by rw [hstep]; exact h1) h2
        · obtain ⟨q1, q2, q3⟩ :=
            vsProgramSetWord_accepted s v hexcl (Nat.not_le.mp hb)
          by_cases ho : o = s.vsProgramOffset
          · obtain ⟨_, _, _, pc, _⟩ :=
              runVsSetup_inv swizzleSize rest (vsSetupStep swizzleSize s (.programWord v))
            obtain ⟨c1, c2⟩ := pc o (by
              show o < (vsProgramSetWord s v).vsProgramOffset
              omega)
            rw [c1, c2]
            show (vsProgramSetWord s v).vsProgramCode o = (vsProgramSetWord s v).gsProgramCode o
            rw [ho, q2, q3]
          · refine ihp o ?_ h2
            show (vsProgramSetWord s v).vsProgramOffset ≤ o
            omega
      | swizzleWord v =>
        obtain ⟨f1, f2, f3⟩ := vsSwizzleSetWord_program_fields swizzleSize s v
        refine ihp o ?_ h2
        show (vsSwizzleSetWord swizzleSize s v).vsProgramOffset ≤ o
        omega
    · intro o h1 h2
      cases w with
      | swizzleWord v =>
        by_cases hb : swizzleSize ≤ s.vsSwizzleOffset
        · have hstep : vsSetupStep swizzleSize s (.swizzleWord v) = s := by
            simp [vsSetupStep, vsSwizzleSetWord, hb]
          exact ihs o (by rw [hstep]; exact h1) h2
        · obtain ⟨q1, q2, q3⟩ :=
            vsSwizzleSetWord_accepted swizzleSize s v hexcl (Nat.not_le.mp hb)
          by_cases ho : o = s.vsSwizzleOffset
          · obtain ⟨_, _, _, _, sc⟩ :=
              runVsSetup_inv swizzleSize rest (vsSetupStep swizzleSize s (.swizzleWord v))
            obtain ⟨c1, c2⟩ := sc o (by
              show o < (vsSwizzleSetWord swizzleSize s v).vsSwizzleOffset
              omega)
            rw [c1, c2]
            show (vsSwizzleSetWord swizzleSize s v).vsSwizzleData o =
              (vsSwizzleSetWord swizzleSize s v).gsSwizzleData o
            rw [ho, q2, q3]
          · refine ihs o ?_ h2
            show (vsSwizzleSetWord swizzleSize s v).vsSwizzleOffset ≤ o
            omega
      | programWord v =>
        obtain ⟨f1, f2, f3⟩ := vsProgramSetWord_swizzle_fields s v
        refine ihs o ?_ h2
        show (vsProgramSetWord s v).vsSwizzleOffset ≤ o
        omega

/-- C7: with gs_unit_exclusive_configuration clear, an in-range
vertex-unit program or swizzle word write stores the value in the vertex
unit and writes the identical value into the geometry unit at the same
offset, so after any sequence of such writes every offset written to the
vertex unit (the offsets between the initial and the final write cursor)
holds the same word in both units; with the flag set only the vertex
unit is written and the geometry-unit stores and dirty flags are
untouched. -/
theorem C7_gs_mirrors_vs_setup_writes (swizzleSize : Nat) (s : ShaderUnitsState)
    (v : Nat) (l : List VsSetupWrite) :
    (s.gsUnitExclusiveConfiguration = false → s.vsProgramOffset < 512 →
        (vsProgramSetWord s v).vsProgramCode s.vsProgramOffset = v
        ∧ (vsProgramSetWord s v).gsProgramCode s.vsProgramOffset = v)
    ∧ (s.gsUnitExclusiveConfiguration = false → s.vsSwizzleOffset < swizzleSize →
        (vsSwizzleSetWord swizzleSize s v).vsSwizzleData s.vsSwizzleOffset = v
        ∧ (vsSwizzleSetWord swizzleSize s v).gsSwizzleData s.vsSwizzleOffset = v)
    ∧ (s.gsUnitExclusiveConfiguration = false →
        (∀ o, s.vsProgramOffset ≤ o →
          o < (runVsSetupWrites swizzleSize s l).vsProgramOffset →
          (runVsSetupWrites swizzleSize s l).vsProgramCode o =
            (runVsSetupWrites swizzleSize s l).gsProgramCode o)
        ∧ (∀ o, s.vsSwizzleOffset ≤ o →
          o < (runVsSetupWrites swizzleSize s l).vsSwizzleOffset →
          (runVsSetupWrites swizzleSize s l).vsSwizzleData o =
            (runVsSetupWrites swizzleSize s l).gsSwizzleData o))
    ∧ (s.gsUnitExclusiveConfiguration = true →
        (vsProgramSetWord s v).gsProgramCode = s.gsProgramCode
        ∧ (vsProgramSetWord s v).gsProgramDirty = s.gsProgramDirty
        ∧ (vsSwizzleSetWord swizzleSize s v).gsSwizzleData = s.gsSwizzleData
        ∧ (vsSwizzleSetWord swizzleSize s v).gsSwizzleDirty = s.gsSwizzleDirty) := by
  refine ⟨?_, ?_, ?_, ?_⟩
  · intro hexcl hb
    obtain ⟨_, q2, q3⟩ := vsProgramSetWord_accepted s v hexcl hb
    exact ⟨q2, q3⟩
  · intro hexcl hb
    obtain ⟨_, q2, q3⟩ := vsSwizzleSetWord_accepted swizzleSize s v hexcl hb
    exact ⟨q2, q3⟩
  · intro hexcl
    exact runVsSetup_mirror swizzleSize l s hexcl
  · intro hexcl
    constructor
    · by_cases hb : 512 ≤ s.vsProgramOffset <;> simp [vsProgramSetWord, hb, hexcl]
    constructor
    · by_cases hb : 512 ≤ s.vsProgramOffset <;> simp [vsProgramSetWord, hb, hexcl]
    constructor
    · by_cases hb : swizzleSize ≤ s.vsSwizzleOffset <;> simp [vsSwizzleSetWord, hb, hexcl]
    · by_cases hb : swizzleSize ≤ s.vsSwizzleOffset <;> simp [vsSwizzleSetWord, hb, hexcl]

theorem C7_witness :
    (((⟨0, fun _ => 0, false, 0, fun _ => 0, false, fun _ => 7, false, fun _ => 7, false,
        false⟩ : ShaderUnitsState).gsUnitExclusiveConfiguration = false
      ∧ (0 : Nat) < 512)
    ∧ ((vsProgramSetWord
          ⟨0, fun _ => 0, false, 0, fun _ => 0, false, fun _ => 7, false, fun _ => 7, false,
            false⟩ 11).vsProgramCode 0 = 11
      ∧ (vsProgramSetWord
          ⟨0, fun _ => 0, false, 0, fun _ => 0, false, fun _ => 7, false, fun _ => 7, false,
            false⟩ 11).gsProgramCode 0 = 11)) := by
  refine ⟨⟨rfl, by norm_num⟩, ?_⟩
  exact (C7_gs_mirrors_vs_setup_writes 64
    ⟨0, fun _ => 0, false, 0, fun _ => 0, false, fun _ => 7, false, fun _ => 7, false, false⟩
    11 []).1 rfl (by norm_num)

theorem VSUnitLoopSingle_split {α : Type} (shade : Nat → α) (arr : Nat → Nat)
    (batchId k : Nat) (cache : Nat → CachedVertex α) :
    VSUnitLoopSingle shade arr batchId (k + 1) cache =
      if ((VSUnitLoopSingle shade arr batchId k cache).1 (arr k)).batch = batchId
      then VSUnitLoopSingle shade arr batchId k cache
      else (fun u => if u = arr k then ⟨batchId, shade (arr k)⟩
              else (VSUnitLoopSingle shade arr batchId k cache).1 u,
            (VSUnitLoopSingle shade arr batchId k cache).2 ++ [arr k]) := rfl

theorem VSUnitLoopSingle_spec {α : Type} (shade : Nat → α) (arr : Nat → Nat)
    (batchId : Nat) :
    ∀ (k : Nat) (cache : Nat → CachedVertex α),
      (∀ u, (cache u).batch ≠ batchId) →
      ∀ u : Nat,
        ((∃ i, i < k ∧ arr i = u) →
          (VSUnitLoopSingle shade arr batchId k cache).1 u = ⟨batchId, shade u⟩
          ∧ (VSUnitLoopSingle shade arr batchId k cache).2.count u = 1)
        ∧ (¬(∃ i, i < k ∧ arr i = u) →
          (VSUnitLoopSingle shade arr batchId k cache).1 u = cache u
          ∧ (VSUnitLoopSingle shade arr batchId k cache).2.count u = 0) := by
  intro k
  induction k with
  | zero =>
    intro cache hfresh u
    constructor
    · rintro ⟨i, hi, _⟩
      omega
    · intro _
      exact ⟨rfl, rfl⟩
  | succ k ih =>
    intro cache hfresh u
    rw [VSUnitLoopSingle_split]
    by_cases hex : ∃ i, i < k ∧ arr i = arr k
    · have hcond : ((VSUnitLoopSingle shade arr batchId k cache).1 (arr k)).batch = batchId := by
        rw [((ih cache hfresh (arr k)).1 hex).1]
      rw [if_pos hcond]
      constructor
      · rintro ⟨i, hi, harr⟩
        rcases Nat.lt_or_ge i k with hik | hik
        · exact (ih cache hfresh u).1 ⟨i, hik, harr⟩
        · have hik2 : i = k := by omega
          obtain ⟨j, hj, hja⟩ := hex
          exact (ih cache hfresh u).1 ⟨j, hj, by rw [hja, ← hik2, harr]⟩
      · intro hn
        refine (ih cache hfresh u).2 ?_
        rintro ⟨i, hi, harr⟩
        exact hn ⟨i, by omega, harr⟩
    · have hcond : ¬ ((VSUnitLoopSingle shade arr batchId k cache).1 (arr k)).batch = batchId := by
        rw [((ih cache hfresh (arr k)).2 hex).1]
        exact hfresh (arr k)
      rw [if_neg hcond]
      by_cases hu : u = arr k
      · constructor
        · intro _
          constructor
          · show (if u = arr k then (⟨batchId, shade (arr k)⟩ : CachedVertex α)
                else (VSUnitLoopSingle shade arr batchId k cache).1 u) = ⟨batchId, shade u⟩
            rw [if_pos hu, hu]
          · show ((VSUnitLoopSingle shade arr batchId k cache).2 ++ [arr k]).count u = 1
            have hz : (VSUnitLoopSingle shade arr batchId k cache).2.count u = 0 := by
              refine ((ih cache hfresh u).2 ?_).2
              rintro ⟨i, hi, harr⟩
              exact hex ⟨i, hi, by rw [harr, hu]⟩
            have hone : List.count u [arr k] = 1 := by
              rw [hu]
              exact List.count_singleton_self _
            simp [hz, hone]
        · intro hn
          exact absurd ⟨k, by omega, hu.symm⟩ hn
      · have hiff : (∃ i, i < k + 1 ∧ arr i = u) ↔ (∃ i, i < k ∧ arr i = u) := by
          constructor
          · rintro ⟨i, hi, harr⟩
            rcases Nat.lt_or_ge i k with hik | hik
            · exact ⟨i, hik, harr⟩
            · have : i = k := by omega
              exact absurd (by rw [← this, harr]) (Ne.symm hu)
          · rintro ⟨i, hi, harr⟩
            exact ⟨i, by omega, harr⟩
        have hcnt : List.count u [arr k] = 0 := by
          rw [List.count_singleton]
          simp [Ne.symm hu]
        constructor
        · intro hex1
          obtain ⟨e1, e2⟩ := (ih cache hfresh u).1 (hiff.mp hex1)
          constructor
          · show (if u = arr k then (⟨batchId, shade (arr k)⟩ : CachedVertex α)
                else (VSUnitLoopSingle shade arr batchId k cache).1 u) = ⟨batchId, shade u⟩
            rw [if_neg hu, e1]
          · show ((VSUnitLoopSingle shade arr batchId k cache).2 ++ [arr k]).count u = 1
            simp [e2, hcnt]
        · intro hn
          obtain ⟨e1, e2⟩ := (ih cache hfresh u).2 (fun h => hn (hiff.mpr h))
          constructor
          · show (if u = arr k then (⟨batchId, shade (arr k)⟩ : CachedVertex α)
                else (VSUnitLoopSingle shade arr batchId k cache).1 u) = cache u
            rw [if_neg hu, e1]
          · show ((VSUnitLoopSingle shade arr batchId k cache).2 ++ [arr k]).count u = 0
            simp [e2, hcnt]

/-- C8: on the single-threaded path of an indexed draw with a fresh
batch id (no cache entry tagged with it yet), a vertex index value that
occurs in the index array is shaded exactly once during the batch
(occurrences after the first are skipped through the batch-generation
tag), and every consumption of that vertex in submission order reads the
same cached shader result. -/
theorem C8_vertex_cache_dedup {α : Type} (shade : Nat → α) (arr : Nat → Nat)
    (batchId n : Nat) (cache : Nat → CachedVertex α)
    (hfresh : ∀ u, (cache u).batch ≠ batchId) (v : Nat)
    (hocc : ∃ i, i < n ∧ arr i = v) :
    (VSUnitLoopSingle shade arr batchId n cache).2.count v = 1
    ∧ ∀ i, i < n → arr i = v →
        consumeVertex shade arr batchId n cache i = shade v := by
  obtain ⟨h1, h2⟩ := (VSUnitLoopSingle_spec shade arr batchId n cache hfresh v).1 hocc
  refine ⟨h2, ?_⟩
  intro i hi harr
  show ((VSUnitLoopSingle shade arr batchId n cache).1 (arr i)).data = shade v
  rw [harr, h1]

theorem C8_witness :
    ((∀ u : Nat, ((fun _ => (⟨0, 0⟩ : CachedVertex Nat)) u).batch ≠ 1)
      ∧ (∃ i, i < 3 ∧ (fun _ => 5) i = 5))
    ∧ ((VSUnitLoopSingle (fun u => u * 2 + 1) (fun _ => 5) 1 3 (fun _ => ⟨0, 0⟩)).2.count 5 = 1
      ∧ ∀ i, i < 3 → (fun _ => 5) i = 5 →
          consumeVertex (fun u => u * 2 + 1) (fun _ => 5) 1 3 (fun _ => ⟨0, 0⟩) i = 11) := by
  refine ⟨⟨fun u => Nat.zero_ne_one, ⟨0, by norm_num, rfl⟩⟩, ?_⟩
  exact C8_vertex_cache_dedup (fun u => u * 2 + 1) (fun _ => 5) 1 3 (fun _ => ⟨0, 0⟩)
    (fun u => Nat.zero_ne_one) 5 ⟨0, by norm_num, rfl⟩

theorem chainRegs_write : regFileWrite 768 chainRegs 0x23C 0 0 = chainRegs := by
  funext j
  by_cases hj : j = 0x23C
  · subst hj
    decide
  · simp [regFileWrite, hj]

theorem chain_fix : cmdStep chainEnv chainState = chainState := by
  have hw : cmdStep chainEnv chainState =
      { head := (regFileWrite 768 chainRegs 0x23C 0 0) 0x238
        cur := (regFileWrite 768 chainRegs 0x23C 0 0) 0x238
        len := (regFileWrite 768 chainRegs 0x23C 0 0) 0x23A
        regs := regFileWrite 768 chainRegs 0x23C 0 0 } := rfl
  rw [hw, chainRegs_write]
  have h238 : chainRegs 0x238 = 100 := by decide
  have h23A : chainRegs 0x23A = 2 := by decide
  rw [h238, h23A]
  rfl

theorem chain_no_final : ∀ fuel, cmdRun chainEnv fuel chainState = none := by
  intro fuel
  induction fuel with
  | zero => rfl
  | succ n ih =>
    have hcond : ¬ (chainState.head + chainState.len ≤ chainState.cur) := by decide
    show (if chainState.head + chainState.len ≤ chainState.cur then some chainState
      else cmdRun chainEnv n (cmdStep chainEnv chainState)) = none
    rw [if_neg hcond, chain_fix]
    exact ih

/-- C9 counterexample: the two-word command list at address 100 whose
single command writes the command-buffer trigger register pointing back
at the same list makes ProcessCommandList loop forever: the trigger case
resets head, cursor and length to the very same values each iteration,
so no amount of fuel makes the walk exit, refuting the claim that every
command buffer of finite declared length terminates. -/
theorem C9_counterexample : ¬ CmdTerminates chainEnv chainState := by
  rintro ⟨fuel, final, h⟩
  rw [chain_no_final fuel] at h
  exact Option.noConfusion h

theorem cmdWritePica_no_trigger (env : CmdEnv) (st : CmdState) (id value mask : Nat)
    (h : ¬(id = env.trig0 ∨ id = env.trig0 + 1)) :
    (cmdWritePica env st id value mask).head = st.head
    ∧ (cmdWritePica env st id value mask).cur = st.cur
    ∧ (cmdWritePica env st id value mask).len = st.len := by
  by_cases hn : env.numRegs ≤ id <;> simp [cmdWritePica, hn, h]

theorem cmdExtraLoop_no_trigger (env : CmdEnv) (base mask : Nat) (group : Bool) (E : Nat)
    (hno : ∀ i, i < E →
      ¬(base + (if group then i + 1 else 0) = env.trig0
        ∨ base + (if group then i + 1 else 0) = env.trig0 + 1)) :
    ∀ (n i : Nat), i + n = E → ∀ st : CmdState,
      (cmdExtraLoop env base mask group n i st).head = st.head
      ∧ (cmdExtraLoop env base mask group n i st).cur = st.cur + n
      ∧ (cmdExtraLoop env base mask group n i st).len = st.len := by
  intro n
  induction n with
  | zero =>
    intro i _ st
    simp [cmdExtraLoop]
  | succ n ih =>
    intro i hie st
    have hi : i < E := by omega
    have hunf : cmdExtraLoop env base mask group (n + 1) i st =
        cmdExtraLoop env base mask group n (i + 1)
          (cmdWritePica env { st with cur := st.cur + 1 }
            (base + (if group then i + 1 else 0)) (env.mem st.cur) mask) := rfl
    obtain ⟨w1, w2, w3⟩ := cmdWritePica_no_trigger env { st with cur := st.cur + 1 }
      (base + (if group then i + 1 else 0)) (env.mem st.cur) mask (hno i hi)
    obtain ⟨r1, r2, r3⟩ := ih (i + 1) (by omega)
      (cmdWritePica env { st with cur := st.cur + 1 }
        (base + (if group then i + 1 else 0)) (env.mem st.cur) mask)
    rw [hunf]
    refine ⟨?_, ?_, ?_⟩
    · rw [r1, w1]
    · rw [r2, w2]
      show st.cur + 1 + n = st.cur + (n + 1)
      omega
    · rw [r3, w3]

theorem cmdStep_core_no_trigger (env : CmdEnv)
    (hmem : ∀ a, ¬ headerWritesTrigger env (env.mem a)) (st1 : CmdState) :
    (cmdExtraLoop env (headerCmdId (env.mem (st1.cur + 1)))
        (headerMask (env.mem (st1.cur + 1))) (headerGroup (env.mem (st1.cur + 1)))
        (headerExtra (env.mem (st1.cur + 1))) 0
        (cmdWritePica env { st1 with cur := st1.cur + 2 }
          (headerCmdId (env.mem (st1.cur + 1))) (env.mem st1.cur)
          (headerMask (env.mem (st1.cur + 1))))).head = st1.head
    ∧ st1.cur + 2 + headerExtra (env.mem (st1.cur + 1)) =
        (cmdExtraLoop env (headerCmdId (env.mem (st1.cur + 1)))
          (headerMask (env.mem (st1.cur + 1))) (headerGroup (env.mem (st1.cur + 1)))
          (headerExtra (env.mem (st1.cur + 1))) 0
          (cmdWritePica env { st1 with cur := st1.cur + 2 }
            (headerCmdId (env.mem (st1.cur + 1))) (env.mem st1.cur)
            (headerMask (env.mem (st1.cur + 1))))).cur
    ∧ (cmdExtraLoop env (headerCmdId (env.mem (st1.cur + 1)))
        (headerMask (env.mem (st1.cur + 1))) (headerGroup (env.mem (st1.cur + 1)))
        (headerExtra (env.mem (st1.cur + 1))) 0
        (cmdWritePica env { st1 with cur := st1.cur + 2 }
          (headerCmdId (env.mem (st1.cur + 1))) (env.mem st1.cur)
          (headerMask (env.mem (st1.cur + 1))))).len = st1.len := by
  have hh := hmem (st1.cur + 1)
  rw [headerWritesTrigger] at hh
  have h1 : ¬(headerCmdId (env.mem (st1.cur + 1)) = env.trig0
      ∨ headerCmdId (env.mem (st1.cur + 1)) = env.trig0 + 1) := fun hx => hh (Or.inl hx)
  have h2 : ∀ i, i < headerExtra (env.mem (st1.cur + 1)) →
      ¬(headerCmdId (env.mem (st1.cur + 1)) + (if headerGroup (env.mem (st1.cur + 1)) then i + 1 else 0) = env.trig0
        ∨ headerCmdId (env.mem (st1.cur + 1)) + (if headerGroup (env.mem (st1.cur + 1)) then i + 1 else 0) = env.trig0 + 1) :=
    fun i hi hx => hh (Or.inr ⟨i, hi, hx⟩)
  obtain ⟨w1, w2, w3⟩ := cmdWritePica_no_trigger env { st1 with cur := st1.cur + 2 }
    (headerCmdId (env.mem (st1.cur + 1))) (env.mem st1.cur)
    (headerMask (env.mem (st1.cur + 1))) h1
  obtain ⟨r1, r2, r3⟩ := cmdExtraLoop_no_trigger env (headerCmdId (env.mem (st1.cur + 1)))
    (headerMask (env.mem (st1.cur + 1))) (headerGroup (env.mem (st1.cur + 1)))
    (headerExtra (env.mem (st1.cur + 1))) h2 (headerExtra (env.mem (st1.cur + 1))) 0
    (by omega)
    (cmdWritePica env { st1 with cur := st1.cur + 2 }
      (headerCmdId (env.mem (st1.cur + 1))) (env.mem st1.cur)
      (headerMask (env.mem (st1.cur + 1))))
  refine ⟨?_, ?_, ?_⟩
  · rw [r1, w1]
  · rw [r2, w2]
  · rw [r3, w3]

theorem cmdStep_no_trigger (env : CmdEnv)
    (hmem : ∀ a, ¬ headerWritesTrigger env (env.mem a)) (st : CmdState) :
    (cmdStep env st).head = st.head
    ∧ st.cur + 2 ≤ (cmdStep env st).cur
    ∧ (cmdStep env st).len = st.len := by
  by_cases halign : (st.cur - st.head) % 2 ≠ 0
  · have hstep : cmdStep env st =
        cmdExtraLoop env (headerCmdId (env.mem ((st.cur + 1) + 1)))
          (headerMask (env.mem ((st.cur + 1) + 1)))
          (headerGroup (env.mem ((st.cur + 1) + 1)))
          (headerExtra (env.mem ((st.cur + 1) + 1))) 0
          (cmdWritePica env { st with cur := (st.cur + 1) + 2 }
            (headerCmdId (env.mem ((st.cur + 1) + 1))) (env.mem (st.cur + 1))
            (headerMask (env.mem ((st.cur + 1) + 1)))) := by
      simp only [cmdStep]
      rw [if_pos halign]
    obtain ⟨c1, c2, c3⟩ := cmdStep_core_no_trigger env hmem { st with cur := st.cur + 1 }
    dsimp only at c1 c2 c3
    rw [hstep]
    exact ⟨c1, by omega, c3⟩
  · have hstep : cmdStep env st =
        cmdExtraLoop env (headerCmdId (env.mem (st.cur + 1)))
          (headerMask (env.mem (st.cur + 1)))
          (headerGroup (env.mem (st.cur + 1)))
          (headerExtra (env.mem (st.cur + 1))) 0
          (cmdWritePica env { st with cur := st.cur + 2 }
            (headerCmdId (env.mem (st.cur + 1))) (env.mem st.cur)
            (headerMask (env.mem (st.cur + 1)))) := by
      simp only [cmdStep]
      rw [if_neg halign]
    obtain ⟨c1, c2, c3⟩ := cmdStep_core_no_trigger env hmem st
    rw [hstep]
    exact ⟨c1, by omega, c3⟩

theorem cmdRun_terminates (env : CmdEnv)
    (hmem : ∀ a, ¬ headerWritesTrigger env (env.mem a)) :
    ∀ (k : Nat) (st : CmdState), st.head + st.len ≤ st.cur + 2 * k →
      ∃ final, cmdRun env (k + 1) st = some final
        ∧ final.head + final.len ≤ final.cur := by
  intro k
  induction k with
  | zero =>
    intro st hst
    have hdone : st.head + st.len ≤ st.cur := by omega
    refine ⟨st, ?_, hdone⟩
    show (if st.head + st.len ≤ st.cur then some st
      else cmdRun env 0 (cmdStep env st)) = some st
    rw [if_pos hdone]
  | succ k ih =>
    intro st hst
    by_cases hdone : st.head + st.len ≤ st.cur
    · refine ⟨st, ?_, hdone⟩
      show (if st.head + st.len ≤ st.cur then some st
        else cmdRun env (k + 1) (cmdStep env st)) = some st
      rw [if_pos hdone]
    · obtain ⟨s1, s2, s3⟩ := cmdStep_no_trigger env hmem st
      obtain ⟨final, hrun, hfin⟩ := ih (cmdStep env st) (by omega)
      refine ⟨final, ?_, hfin⟩
      show (if st.head + st.len ≤ st.cur then some st
        else cmdRun env (k + 1) (cmdStep env st)) = some final
      rw [if_neg hdone]
      exact hrun

/-- C9 (amended): a command-buffer trigger write repoints the cursor at
a freshly configured list (command-list chaining), so termination is not
unconditional; provided no word of guest memory decodes to a command
header that writes a command-buffer trigger register, ProcessCommandList
terminates: each iteration consumes one value word and one header word
(after an alignment bump of one word when the cursor sits at an odd word
offset from the list head) plus the declared extra data, advancing the
cursor by at least two words with head and length unchanged, and the
walk exits as soon as the cursor reaches or passes head + length. -/
theorem C9_command_list_termination (env : CmdEnv) (regs : RegFile)
    (listAddr sizeBytes : Nat)
    (hmem : ∀ a, ¬ headerWritesTrigger env (env.mem a)) :
    (∀ st : CmdState,
        (cmdStep env st).head = st.head
        ∧ st.cur + 2 ≤ (cmdStep env st).cur
        ∧ (cmdStep env st).len = st.len)
    ∧ (∃ fuel final, cmdRun env fuel (initCmdState regs listAddr sizeBytes) = some final
        ∧ final.head + final.len ≤ final.cur)
    ∧ CmdTerminates env (initCmdState regs listAddr sizeBytes) := by
  have hterm := cmdRun_terminates env hmem (sizeBytes / 4)
    (initCmdState regs listAddr sizeBytes)
    (by
      show listAddr + sizeBytes / 4 ≤ listAddr + 2 * (sizeBytes / 4)
      omega)
  obtain ⟨final, hrun, hfin⟩ := hterm
  exact ⟨fun st => cmdStep_no_trigger env hmem st,
    ⟨sizeBytes / 4 + 1, final, hrun, hfin⟩,
    ⟨sizeBytes / 4 + 1, final, hrun⟩⟩

theorem C9_witness :
    (∀ a : Nat, ¬ headerWritesTrigger
        { mem := fun _ => 0, numRegs := 768, trig0 := 0x23C,
          physAddrWords := fun regs i => regs (0x238 + i),
          sizeWords := fun regs i => regs (0x23A + i) } 0)
    ∧ CmdTerminates
        { mem := fun _ => 0, numRegs := 768, trig0 := 0x23C,
          physAddrWords := fun regs i => regs (0x238 + i),
          sizeWords := fun regs i => regs (0x23A + i) }
        (initCmdState (fun _ => 0) 100 16) := by
  have hmem : ∀ a, ¬ headerWritesTrigger
      { mem := fun _ => 0, numRegs := 768, trig0 := 0x23C,
        physAddrWords := fun regs i => regs (0x238 + i),
        sizeWords := fun regs i => regs (0x23A + i) }
      ((fun (_ : Nat) => (0 : Nat)) a) := by
    intro a
    rw [headerWritesTrigger]
    simp [headerCmdId, headerExtra]
  refine ⟨fun a => hmem a, ?_⟩
  exact (C9_command_list_termination
    { mem := fun _ => 0, numRegs := 768, trig0 := 0x23C,
      physAddrWords := fun regs i => regs (0x238 + i),
      sizeWords := fun regs i => regs (0x23A + i) }
    (fun _ => 0) 100 16 hmem).2.2

end Vvctre
